import Mathlib

/-!
Shallow embedding of the configuration-file loader from `configuration.cpp` /
`configuration.h`: the per-type value parser (`parseValue`), the line grammar
and include grammar (boost regexes, modelled by a small backtracking matcher
with Perl-style leftmost-greedy semantics), include-path resolution, recursive
table loading with warn-and-overwrite merging (`loadConfig`,
`mergeConfigTables`), and the typed getters with `$VAR` expansion inside
string values (`getIntConfig` .. `getStringConfig`).

Strings are modelled as Lean `String` / `List Char`; tables as association
lists with unique keys built by `insertOver` (the model of
`result[name] = value` on `unordered_map`); fatal `exit(1)` paths as `Except`
errors; `cerr` warnings as an explicit warning list.  Recursion through
included files and through variable expansion is fuelled, because the C++
code can actually diverge on cyclic inputs; fuel exhaustion is the dedicated
`fuelOut` error that no real execution path of the C++ produces.
-/

deriving instance DecidableEq for Except

/-- Single-quote character (ASCII 39), as matched by `sscanf(cValueText, "'%c'", ...)`. -/
def squoteChar : Char := Char.ofNat 39

/-- C-locale `isspace`, the character class stripped by `boost::trim_left`. -/
def isSpaceCh (c : Char) : Bool :=
  c == ' ' || c == '\t' || c == '\n' || c == Char.ofNat 11 || c == Char.ofNat 12 || c == '\r'

/-- The character class `[A-Za-z]` from the identifier regexes. -/
def isLetterAZ (c : Char) : Bool :=
  decide (('A' ≤ c ∧ c ≤ 'Z') ∨ ('a' ≤ c ∧ c ≤ 'z'))

/-- The character class `[A-Za-z0-9_-]` (tail of an identifier). -/
def isIdentChar (c : Char) : Bool :=
  isLetterAZ c || decide ('0' ≤ c ∧ c ≤ '9') || c == '_' || c == '-'

/-- Decimal digit value, as consumed by `istream >> intVal` (base 10). -/
def decDigitVal (c : Char) : Option Nat :=
  if c.isDigit then some (c.toNat - 48) else none

/-- Hexadecimal digit value, as consumed by `istream >> hex >> intVal`. -/
def hexDigitVal (c : Char) : Option Nat :=
  if c.isDigit then some (c.toNat - 48)
  else if decide ('a' ≤ c ∧ c ≤ 'f') then some (c.toNat - 87)
  else if decide ('A' ≤ c ∧ c ≤ 'F') then some (c.toNat - 55)
  else none

/-- Octal digit value, as consumed by `istream >> oct >> intVal`. -/
def octDigitVal (c : Char) : Option Nat :=
  if decide ('0' ≤ c ∧ c ≤ '7') then some (c.toNat - 48) else none

/-- Accumulate digit values in the given base; `none` on the first non-digit. -/
def digitsVal (base : Nat) (dv : Char → Option Nat) (ds : List Char) : Option Nat :=
  ds.foldl
    (fun acc c =>
      match acc, dv c with
      | some a, some d => some (a * base + d)
      | _, _ => none)
    (some 0)

/-- Model of `istream >> value.intVal` (with `hex`/`oct` manipulators for base
16/8) followed by the `!iss.eof() || iss.fail()` check in `parseValue`: the
whole text must be consumed, at least one digit is required, an optional sign
is accepted, base 16 additionally accepts a `0x`/`0X` prefix, and values
outside the 32-bit `int` range set `failbit`. -/
def parseIntText (base : Nat) (dv : Char → Option Nat) (s : List Char) : Option Int :=
  let signSplit : Bool × List Char :=
    match s with
    | '-' :: t => (true, t)
    | '+' :: t => (false, t)
    | _ => (false, s)
  let s1 := signSplit.2
  let s2 :=
    if base = 16 then
      match s1 with
      | '0' :: 'x' :: t => t
      | '0' :: 'X' :: t => t
      | _ => s1
    else s1
  if s2 = [] then none
  else
    match digitsVal base dv s2 with
    | none => none
    | some n =>
      let v : Int := if signSplit.1 then -(n : Int) else (n : Int)
      if v < -(2 ^ 31) ∨ 2 ^ 31 - 1 < v then none else some v

/-- Digits of a decimal numeral as a natural number. -/
def natOfDigits (ds : List Char) : Nat :=
  ds.foldl (fun a c => a * 10 + (c.toNat - 48)) 0

/-- Model of `istream >> value.floatVal` followed by the whole-text-consumed
check: optional sign, decimal digits with an optional fractional part (at
least one digit overall), optional exponent.  The value is kept exactly, as a
rational. -/
def parseFloatText (s : List Char) : Option Rat :=
  let signSplit : Bool × List Char :=
    match s with
    | '-' :: t => (true, t)
    | '+' :: t => (false, t)
    | _ => (false, s)
  let ipSplit := signSplit.2.span Char.isDigit
  let fpSplit : List Char × List Char :=
    match ipSplit.2 with
    | '.' :: t => t.span Char.isDigit
    | _ => ([], ipSplit.2)
  if ipSplit.1 = [] ∧ fpSplit.1 = [] then none
  else
    let mant0 : Rat := (natOfDigits (ipSplit.1 ++ fpSplit.1) : Rat) / ((10 : Rat) ^ fpSplit.1.length)
    let mant : Rat := if signSplit.1 then -mant0 else mant0
    match fpSplit.2 with
    | [] => some mant
    | e :: t =>
      if e = 'e' ∨ e = 'E' then
        let esplit : Bool × List Char :=
          match t with
          | '-' :: u => (true, u)
          | '+' :: u => (false, u)
          | _ => (false, t)
        let edSplit := esplit.2.span Char.isDigit
        if edSplit.1 = [] ∨ edSplit.2 ≠ [] then none
        else if esplit.1 then some (mant / ((10 : Rat) ^ natOfDigits edSplit.1))
        else some (mant * ((10 : Rat) ^ natOfDigits edSplit.1))
      else none

/-- The `configValue` struct: a `type` tag string plus the anonymous union.
The union is modelled as a record with default (deterministic stand-ins for
uninitialized) fields; every read of a union member in the C++ code is guarded
by a check of `type`, so only the member matching the tag is ever meaningful. -/
structure configValue where
  type : String
  intVal : Int := 0
  floatVal : Rat := 0
  charVal : Char := ' '
  boolVal : Bool := false
  stringVal : String := ""
  deriving DecidableEq

/-- The canonicalization at `loadConfig` lines 166-169: `hex`/`octal` store as
`int`, `boolean` stores as `bool`, every other tag is kept. -/
def canonTag (ty : String) : String :=
  if ty = "hex" ∨ ty = "octal" then "int"
  else if ty = "boolean" then "bool"
  else ty

/-- `parseValue(type, valueText)`.  Branch by branch from the source:
* `int`/`hex`/`octal`: stream extraction in base 10/16/8 with the
  `!iss.eof() || iss.fail()` check; `hex`/`octal` store `type = "int"`.
* `float`: stream extraction of a floating literal, same consumption check.
* `bool`/`boolean`: exactly `true`/`1`/`false`/`0`; stores `type = "bool"`.
* `char`: `sscanf("'%c'")` counts its one conversion as soon as a quote and a
  following character are present (the closing-quote literal is matched after
  the conversion, so its absence does not lower the return value), else
  `sscanf("%c")` takes the first character of any nonempty text; only the
  empty text fails.
* `string`: `sscanf("\"%[^\"]\"")` needs a leading quote and at least one
  following non-quote character and captures up to the next quote or the end
  (again the closing-quote literal cannot lower the return value), else
  `sscanf("%[^\"]")` captures a nonempty quote-free prefix.
* any other tag: `"invalid type name"`; conversion failures: `"invalid syntax"`. -/
def parseValue (type : String) (valueText : String) : configValue :=
  if type = "int" then
    match parseIntText 10 decDigitVal valueText.data with
    | some n => { type := "int", intVal := n }
    | none => { type := "invalid syntax" }
  else if type = "hex" then
    match parseIntText 16 hexDigitVal valueText.data with
    | some n => { type := "int", intVal := n }
    | none => { type := "invalid syntax" }
  else if type = "octal" then
    match parseIntText 8 octDigitVal valueText.data with
    | some n => { type := "int", intVal := n }
    | none => { type := "invalid syntax" }
  else if type = "float" then
    match parseFloatText valueText.data with
    | some q => { type := "float", floatVal := q }
    | none => { type := "invalid syntax" }
  else if type = "bool" ∨ type = "boolean" then
    if valueText = "true" ∨ valueText = "1" then { type := "bool", boolVal := true }
    else if valueText = "false" ∨ valueText = "0" then { type := "bool", boolVal := false }
    else { type := "invalid syntax" }
  else if type = "char" then
    match valueText.data with
    | [] => { type := "invalid syntax" }
    | [c] => { type := "char", charVal := c }
    | a :: b :: _ =>
      if a = squoteChar then { type := "char", charVal := b }
      else { type := "char", charVal := a }
  else if type = "string" then
    match valueText.data with
    | [] => { type := "invalid syntax" }
    | c :: rest =>
      if c = '"' then
        let inner := rest.takeWhile (fun x => x ≠ '"')
        if inner = [] then { type := "invalid syntax" }
        else { type := "string", stringVal := String.mk inner }
      else { type := "string", stringVal := String.mk ((c :: rest).takeWhile (fun x => x ≠ '"')) }
  else { type := "invalid type name" }

/-- `ConfigTable`: the `unordered_map<string, configValue>` as an association
list with unique keys.  Lookup is `List.lookup`. -/
abbrev Table := List (String × configValue)

/-- `result[name] = value` on the map: overwrite an existing binding in place,
else append a new one. -/
def insertOver : Table → String → configValue → Table
  | [], k, v => [(k, v)]
  | (k1, v1) :: rest, k, v =>
    if k1 = k then (k1, v) :: rest
    else (k1, v1) :: insertOver rest k v

/-- `mergeConfigTables(c1, c2)`: write every entry of `c2` over `c1`. -/
def mergeConfigTables (c1 c2 : Table) : Table :=
  c2.foldl (fun acc kv => insertOver acc kv.1 kv.2) c1

/-- The two `cerr` warnings emitted by `loadConfig` (redefinition in a file,
redefinition during an include merge). -/
inductive Warning where
  | alreadyBound (file : String) (line : Nat) (name : String)
  | includeAlreadyBound (includeFile : String) (name : String)
  deriving DecidableEq

/-- The `exit(1)` paths of loading, as structured errors; `fuelOut` is the
model artifact for runs on which the C++ recursion would not terminate. -/
inductive LoadErr where
  | fileNotFound (file : String)
  | unexpectedEndOfLine (file : String) (line : Nat)
  | invalidTypeName (file : String) (line : Nat) (typeTag : String)
  | invalidValueFormat (file : String) (line : Nat)
  | fuelOut
  deriving DecidableEq

/-- Tiny regex AST, enough for the three regexes in the source. -/
inductive RE where
  | eps
  | ch (c : Char)
  | cls (p : Char → Bool)
  | seq (a b : RE)
  | alt (a b : RE)
  | star (a : RE)
  | group (n : Nat) (a : RE)

/-- Captured groups: group number paired with the matched characters. -/
abbrev Caps := List (Nat × List Char)

/-- Backtracking matcher in continuation style with Perl (boost default)
preference: an alternation tries its left branch first, a star prefers to
iterate (and an iteration must consume input).  `fuel` only bounds the
nesting depth and is chosen large enough in `reFullMatch`. -/
def mre : Nat → RE → List Char → Caps → (List Char → Caps → Option Caps) → Option Caps
  | 0, _, _, _, _ => none
  | _ + 1, .eps, s, caps, k => k s caps
  | _ + 1, .ch c, s, caps, k =>
    match s with
    | [] => none
    | a :: s1 => if a = c then k s1 caps else none
  | _ + 1, .cls p, s, caps, k =>
    match s with
    | [] => none
    | a :: s1 => if p a then k s1 caps else none
  | fuel + 1, .seq r1 r2, s, caps, k =>
    mre fuel r1 s caps (fun s1 c1 => mre fuel r2 s1 c1 k)
  | fuel + 1, .alt r1 r2, s, caps, k =>
    (mre fuel r1 s caps k).orElse (fun _ => mre fuel r2 s caps k)
  | fuel + 1, .star r, s, caps, k =>
    (mre fuel r s caps (fun s1 c1 =>
      if s1.length < s.length then mre fuel (.star r) s1 c1 k else none)).orElse
      (fun _ => k s caps)
  | fuel + 1, .group n r, s, caps, k =>
    mre fuel r s caps (fun s1 c1 => k s1 (c1 ++ [(n, s.take (s.length - s1.length))]))

/-- Anchored whole-string match (`boost::regex_match`). -/
def reFullMatch (r : RE) (s : List Char) : Option Caps :=
  mre (60 * s.length + 600) r s [] (fun s1 caps => if s1 = [] then some caps else none)

/-- `[A-Za-z][A-Za-z0-9_-]*`. -/
def identRE : RE := .seq (.cls isLetterAZ) (.star (.cls isIdentChar))

/-- ` *`. -/
def spacesStar : RE := .star (.ch ' ')

/-- ` +`. -/
def spacesPlus : RE := .seq (.ch ' ') spacesStar

/-- `.` (any character but newline). -/
def dotCls : RE := .cls (fun c => c != '\n')

/-- One repetition of the value group: `[^\n# ]` or `\".*\"`. -/
def valueTokenRE : RE :=
  .alt (.cls (fun c => c != '\n' && c != '#' && c != ' '))
    (.seq (.ch '"') (.seq (.star dotCls) (.ch '"')))

/-- The assignment-line regex
`([A-Za-z][A-Za-z0-9_-]*) +([A-Za-z][A-Za-z0-9_-]*) *= *((?:[^\n# ]|\".*\")*) *(?:#.*)?`. -/
def lineRE : RE :=
  .seq (.group 1 identRE)
    (.seq spacesPlus
      (.seq (.group 2 identRE)
        (.seq spacesStar
          (.seq (.ch '=')
            (.seq spacesStar
              (.seq (.group 3 (.star valueTokenRE))
                (.seq spacesStar
                  (.alt (.seq (.ch '#') (.star dotCls)) .eps))))))))

/-- The include-line regex `use \"(.*)\"`. -/
def includeRE : RE :=
  .seq (.ch 'u')
    (.seq (.ch 's')
      (.seq (.ch 'e')
        (.seq (.ch ' ')
          (.seq (.ch '"')
            (.seq (.group 1 (.star dotCls)) (.ch '"'))))))

/-- Contents of a captured group (empty when the group is absent). -/
def capGet (caps : Caps) (n : Nat) : List Char := (caps.lookup n).getD []

/-- `regex_match(line, parseResult, lineParse)` with the three captures. -/
def lineMatch (line : String) : Option (String × String × String) :=
  match reFullMatch lineRE line.data with
  | none => none
  | some caps =>
    some (String.mk (capGet caps 1), String.mk (capGet caps 2), String.mk (capGet caps 3))

/-- `regex_match(line, parseResult, includeParse)` with its single capture. -/
def includeMatch (line : String) : Option String :=
  match reFullMatch includeRE line.data with
  | none => none
  | some caps => some (String.mk (capGet caps 1))

/-- Loop body of `isAllWhitespace`: scan up to the first `#`, requiring every
character before it to be a literal space. -/
def isAllWhitespaceGo : List Char → Bool
  | [] => true
  | c :: rest => if c = '#' then true else (c == ' ') && isAllWhitespaceGo rest

/-- `isAllWhitespace(line)` from the source. -/
def isAllWhitespace (line : String) : Bool := isAllWhitespaceGo line.data

/-- First-match replacement of the regex `/[^/]*$` by `/` + payload, i.e. the
`replace_regex_copy(filename, filenameParse, "/" + parseResult[1])` call: the
unique match starts at the last `/`, so everything from the last `/` on is
replaced; a filename without `/` has no match and is returned unchanged. -/
def replaceLastSlashSuffix : List Char → List Char → List Char
  | [], _ => []
  | c :: rest, payload =>
    if c = '/' ∧ '/' ∉ rest then '/' :: payload
    else c :: replaceLastSlashSuffix rest payload

/-- The include path computed by `loadConfig` for a `use "<payload>"` line. -/
def resolveInclude (filename payload : String) : String :=
  String.mk (replaceLastSlashSuffix filename.data payload.data)

/-- `boost::trim_left` on the captured value text. -/
def trimLeft (s : String) : String := String.mk (s.data.dropWhile isSpaceCh)

/-- A file system for the loader: file path to list of lines. -/
abbrev FS := List (String × List String)

/-- Processing of one assignment line (`loadConfig` lines 143-170): parse the
value, abort on `invalid type name` / `invalid syntax`, warn when the name is
already bound, re-canonicalize the tag and overwrite. -/
def applyAssign (filename : String) (ln : Nat) (ty nm vt : String)
    (acc : Table × List Warning) : Except LoadErr (Table × List Warning) :=
  let v := parseValue ty (trimLeft vt)
  if v.type = "invalid type name" then .error (.invalidTypeName filename ln ty)
  else if v.type = "invalid syntax" then .error (.invalidValueFormat filename ln)
  else
    let ws :=
      if (acc.1.lookup nm).isSome then acc.2 ++ [Warning.alreadyBound filename ln nm]
      else acc.2
    .ok (insertOver acc.1 nm { v with type := canonTag ty }, ws)

/-- One step of the include merge (`loadConfig` lines 127-133): warn when the
name is already bound in the accumulated table, then overwrite. -/
def includeMergeStep (nf : String) (acc : Table × List Warning)
    (kv : String × configValue) : Table × List Warning :=
  let ws :=
    if (acc.1.lookup kv.1).isSome then acc.2 ++ [Warning.includeAlreadyBound nf kv.1]
    else acc.2
  (insertOver acc.1 kv.1 kv.2, ws)

/-- The line loop of `loadConfig`, fuelled: blank lines are skipped; an
include line resolves its path, loads that file recursively and merges it at
this position; otherwise the line must match the assignment grammar
(`Unexpected end of line` if not) and is applied by `applyAssign`. -/
def loadGo : Nat → FS → String → List String → Nat → Table × List Warning →
    Except LoadErr (Table × List Warning)
  | 0, _, _, _, _, _ => .error .fuelOut
  | _ + 1, _, _, [], _, acc => .ok acc
  | fuel + 1, fs, filename, line :: rest, ln, acc =>
    if isAllWhitespace line then loadGo fuel fs filename rest (ln + 1) acc
    else
      match includeMatch line with
      | some payload =>
        let nf := resolveInclude filename payload
        match fs.lookup nf with
        | none => .error (.fileNotFound nf)
        | some newLines =>
          match loadGo fuel fs nf newLines 1 ([], []) with
          | .error e => .error e
          | .ok tw =>
            loadGo fuel fs filename rest (ln + 1)
              (tw.1.foldl (includeMergeStep nf) (acc.1, acc.2 ++ tw.2))
      | none =>
        match lineMatch line with
        | none => .error (.unexpectedEndOfLine filename ln)
        | some tnv =>
          match applyAssign filename ln tnv.1 tnv.2.1 tnv.2.2 acc with
          | .error e => .error e
          | .ok acc2 => loadGo fuel fs filename rest (ln + 1) acc2

/-- `loadConfig(filename)`: open the file (fatal if absent) and run the line
loop on its lines. -/
def loadConfig (fuel : Nat) (fs : FS) (filename : String) :
    Except LoadErr (Table × List Warning) :=
  match fs.lookup filename with
  | none => .error (.fileNotFound filename)
  | some lines => loadGo fuel fs filename lines 1 ([], [])

/-- The `exit(1)` paths of the typed getters, as structured errors carrying
the data printed by the C++ messages (`typeMismatch` carries the name, the
kind looked for and the kind found); `fuelOut` is the model artifact for
expansions on which the C++ recursion would not terminate. -/
inductive GetErr where
  | notFound (name : String)
  | typeMismatch (name expected found : String)
  | fuelOut
  deriving DecidableEq

/-- Common shape of `getIntConfig` / `getFloatConfig` / `getBoolConfig` /
`getCharConfig`: not-found check, type check, then the union member read. -/
def getConfigGen (kind : String) (proj : configValue → α) (config : Table)
    (name : String) : Except GetErr α :=
  match config.lookup name with
  | none => .error (.notFound name)
  | some v =>
    if v.type ≠ kind then .error (.typeMismatch name kind v.type)
    else .ok (proj v)

/-- `Configuration::getIntConfig`. -/
def getIntConfig : Table → String → Except GetErr Int :=
  getConfigGen "int" (fun v => v.intVal)

/-- `Configuration::getFloatConfig`. -/
def getFloatConfig : Table → String → Except GetErr Rat :=
  getConfigGen "float" (fun v => v.floatVal)

/-- `Configuration::getBoolConfig`. -/
def getBoolConfig : Table → String → Except GetErr Bool :=
  getConfigGen "bool" (fun v => v.boolVal)

/-- `Configuration::getCharConfig`. -/
def getCharConfig : Table → String → Except GetErr Char :=
  getConfigGen "char" (fun v => v.charVal)

/-- The `regex_replace(str, varSearch, expandVar)` scan inside
`getStringConfig`, fuelled because it is genuinely recursive: on `$` followed
by `[A-Za-z][A-Za-z0-9_-]*` the replacement is `expandVar`, i.e. a full
`getStringConfig` of the referenced name (lookup, string-type check, and
recursive expansion of the stored text); any other character is copied. -/
def expandGo : Nat → Table → List Char → Except GetErr (List Char)
  | 0, _, _ => .error .fuelOut
  | _ + 1, _, [] => .ok []
  | fuel + 1, tbl, c :: rest =>
    if c = '$' ∧ rest ≠ [] ∧ isLetterAZ (rest.headD ' ') then
      let ident := rest.takeWhile isIdentChar
      let after := rest.dropWhile isIdentChar
      match tbl.lookup (String.mk ident) with
      | none => .error (.notFound (String.mk ident))
      | some v =>
        if v.type ≠ "string" then .error (.typeMismatch (String.mk ident) "string" v.type)
        else
          match expandGo fuel tbl v.stringVal.data with
          | .error e => .error e
          | .ok rep =>
            match expandGo fuel tbl after with
            | .error e => .error e
            | .ok tailOut => .ok (rep ++ tailOut)
    else
      match expandGo fuel tbl rest with
      | .error e => .error e
      | .ok tailOut => .ok (c :: tailOut)

/-- `Configuration::getStringConfig`: not-found check, type check, then the
variable-expansion scan over the stored raw text. -/
def getStringConfig (fuel : Nat) (config : Table) (name : String) :
    Except GetErr String :=
  match config.lookup name with
  | none => .error (.notFound name)
  | some v =>
    if v.type ≠ "string" then .error (.typeMismatch name "string" v.type)
    else
      match expandGo fuel config v.stringVal.data with
      | .error e => .error e
      | .ok out => .ok (String.mk out)

/-- Modelled from the spec: the one-level expansion the spec describes for
`getString` ("expansion is one level, not recursively re-expanded inside the
substituted text"): each `$` + identifier occurrence is replaced by the raw
stored string-typed value of that name, with no further expansion of the
substituted text; `none` on a missing or non-string reference.  Written only
to compare against the recursive `expandGo` of the source. -/
def expandOnceSpec : Nat → Table → List Char → Option (List Char)
  | 0, _, _ => none
  | _ + 1, _, [] => some []
  | fuel + 1, tbl, c :: rest =>
    if c = '$' ∧ rest ≠ [] ∧ isLetterAZ (rest.headD ' ') then
      let ident := rest.takeWhile isIdentChar
      let after := rest.dropWhile isIdentChar
      match tbl.lookup (String.mk ident) with
      | none => none
      | some v =>
        if v.type = "string" then
          (expandOnceSpec fuel tbl after).map (fun t => v.stringVal.data ++ t)
        else none
    else (expandOnceSpec fuel tbl rest).map (fun t => c :: t)

/-- The five legal stored kinds. -/
def realKinds : List String := ["int", "float", "bool", "char", "string"]

/-- All values of a table carry one of the five legal kinds. -/
def allReal (t : Table) : Bool :=
  t.all (fun kv => realKinds.contains kv.2.type)

/-- Shorthand for a string-valued entry. -/
def strVal (s : String) : configValue := { type := "string", stringVal := s }

/-- Store for the expansion chain: `C = "$B"`, `B = "$A"`, `A = "x"`. -/
def tblChain : Table := [("A", strVal "x"), ("B", strVal "$A"), ("C", strVal "$B")]

/-- Store with mutually referring string values: `A = "$B"`, `B = "$A"`. -/
def tblCyc : Table := [("A", strVal "$B"), ("B", strVal "$A")]

/-- Store whose only string value references an undefined name. -/
def tblMiss : Table := [("URL", strVal "$MISSING")]

/-- Files for the include-precedence scenario: the root includes `b.cfg`
(defining `N = 1`) and then itself defines `N = 2`. -/
def fsC5 : FS :=
  [("d/root.cfg", ["use \"b.cfg\"", "int N = 2"]),
   ("d/b.cfg", ["int N = 1"])]

/-- File for the int/hex/octal round-trip. -/
def fsC6 : FS :=
  [("conf.cfg", ["int X = 42", "hex Y = 0x1F", "octal Z = 017"])]

/-- One-line file used to witness the loading invariant. -/
def fsW : FS := [("a.cfg", ["int X = 1"])]

/-! ## General lemmas about the embedded operations -/

/-- Lookup after an overwrite-insert: the inserted key maps to the new value,
every other key is unchanged (overwrite-last-wins at the single-step level). -/
theorem lookup_insertOver (t : Table) (k m : String) (v : configValue) :
    (insertOver t k v).lookup m = if m = k then some v else t.lookup m := by
  induction t with
  | nil =>
    by_cases h : m = k
    · subst h; simp [insertOver, List.lookup]
    · have hbeq : (m == k) = false := beq_eq_false_iff_ne.mpr h
      simp [insertOver, List.lookup, h, hbeq]
  | cons kv rest ih =>
    obtain ⟨k1, v1⟩ := kv
    by_cases h1 : k1 = k
    · subst h1
      by_cases h : m = k1
      · subst h; simp [insertOver, List.lookup]
      · have hbeq : (m == k1) = false := beq_eq_false_iff_ne.mpr h
        simp [insertOver, List.lookup, h, hbeq]
    · by_cases hm : m = k1
      · subst hm
        simp [insertOver, h1, List.lookup]
      · have hbeq : (m == k1) = false := beq_eq_false_iff_ne.mpr hm
        simp [insertOver, h1, List.lookup, hbeq, ih]

/-- On a path with no directory component there is no decomposition of the
resolved include path as directory + slash + payload at all: the resolution
returns the original path, which contains no slash. -/
theorem resolveInclude_root_keeps_filename :
    ¬ ∃ d : List Char,
      replaceLastSlashSuffix ("config.txt".data) ("b.txt".data) =
        d ++ '/' :: ("b.txt".data) := by
  rintro ⟨d, h⟩
  have h0 : replaceLastSlashSuffix ("config.txt".data) ("b.txt".data) =
      "config.txt".data := by decide
  rw [h0] at h
  have hm : '/' ∈ ("config.txt".data) := by
    rw [h]; simp
  exact absurd hm (by decide)

/-- Scanning behavior of the blank-line test: true exactly when every
character before the first hash is a literal space. -/
theorem isAllWhitespaceGo_iff (l : List Char) :
    isAllWhitespaceGo l = true ↔ ∀ c ∈ l.takeWhile (fun c => decide (c ≠ '#')), c = ' ' := by
  induction l with
  | nil => simp [isAllWhitespaceGo]
  | cons c rest ih =>
    by_cases h : c = '#'
    · subst h; simp [isAllWhitespaceGo, List.takeWhile]
    · simp [isAllWhitespaceGo, h, List.takeWhile_cons, ih]

/-- The generic getter reports `notFound` exactly when the name is absent. -/
theorem getConfigGen_notFound_iff {α : Type} (kind : String) (proj : configValue → α)
    (tbl : Table) (n : String) :
    getConfigGen kind proj tbl n = .error (.notFound n) ↔ tbl.lookup n = none := by
  cases h : tbl.lookup n with
  | none => simp [getConfigGen, h]
  | some v =>
    simp only [getConfigGen, h]
    split_ifs <;> simp

/-- The generic getter succeeds with the stored union member when the name is
present with the requested kind. -/
theorem getConfigGen_ok {α : Type} (kind : String) (proj : configValue → α)
    (tbl : Table) (n : String) (v : configValue)
    (h : tbl.lookup n = some v) (ht : v.type = kind) :
    getConfigGen kind proj tbl n = .ok (proj v) := by
  simp [getConfigGen, h, ht]

/-- The generic getter reports `typeMismatch` exactly when the name is present
with a kind other than the requested one, and the error then carries the
requested kind as expected and the stored kind as found. -/
theorem getConfigGen_mismatch_iff {α : Type} (kind : String) (proj : configValue → α)
    (tbl : Table) (n e f : String) :
    getConfigGen kind proj tbl n = .error (.typeMismatch n e f) ↔
      (e = kind ∧ f ≠ kind ∧ ∃ w, tbl.lookup n = some w ∧ w.type = f) := by
  cases h : tbl.lookup n with
  | none => simp [getConfigGen, h]
  | some v =>
    by_cases ht : v.type = kind
    · have hg : getConfigGen kind proj tbl n = .ok (proj v) :=
        getConfigGen_ok kind proj tbl n v h ht
      rw [hg]
      constructor
      · intro hcontra
        exact absurd hcontra (by simp)
      · rintro ⟨-, hf, w, hw, hvt⟩
        exfalso
        injection hw with hvw
        subst hvw
        exact hf (by rw [← hvt]; exact ht)
    · have hg : getConfigGen kind proj tbl n = .error (.typeMismatch n kind v.type) := by
        simp [getConfigGen, h, ht]
      rw [hg]
      constructor
      · intro heq
        injection heq with heq
        injection heq with h1 h2 h3
        refine ⟨h2.symm, fun hh => ht (h3.trans hh), v, rfl, h3⟩
      · rintro ⟨he, hf, w, hw, hvt⟩
        injection hw with hvw
        subst hvw
        rw [he, hvt]

/-- Expansion is the identity on text containing no dollar sign (given enough
fuel for the per-character scan). -/
theorem expandGo_no_dollar (tbl : Table) :
    ∀ (cs : List Char) (fuel : Nat), (∀ c ∈ cs, c ≠ '$') → cs.length < fuel →
      expandGo fuel tbl cs = .ok cs := by
  intro cs
  induction cs with
  | nil =>
    intro fuel _ hf
    obtain ⟨f, rfl⟩ : ∃ f, fuel = f + 1 := ⟨fuel - 1, by omega⟩
    rfl
  | cons c rest ih =>
    intro fuel hnd hf
    obtain ⟨f, rfl⟩ : ∃ f, fuel = f + 1 := ⟨fuel - 1, by omega⟩
    have hc : c ≠ '$' := hnd c (by simp)
    have hcond : ¬ (c = '$' ∧ rest ≠ [] ∧ isLetterAZ (rest.headD ' ') = true) :=
      fun hh => hc hh.1
    have hrest := ih f (fun x hx => hnd x (by simp [hx])) (by simpa using hf)
    simp [expandGo, hcond, hrest]
    intro h1 h2 h3
    exact absurd h1 hc

/-- On the mutually-referring store `A = "$B"`, `B = "$A"` the expansion scan
exhausts any amount of fuel: the recursion has no base case. -/
theorem expandGo_cyc (fuel : Nat) :
    expandGo fuel tblCyc ("$A".data) = .error .fuelOut ∧
    expandGo fuel tblCyc ("$B".data) = .error .fuelOut := by
  induction fuel with
  | zero => exact ⟨rfl, rfl⟩
  | succ f ih =>
    have stepA : expandGo (f + 1) tblCyc ("$A".data) =
        (match expandGo f tblCyc ("$B".data) with
         | .error e => .error e
         | .ok rep =>
           match expandGo f tblCyc ([] : List Char) with
           | .error e => .error e
           | .ok tailOut => .ok (rep ++ tailOut)) := rfl
    have stepB : expandGo (f + 1) tblCyc ("$B".data) =
        (match expandGo f tblCyc ("$A".data) with
         | .error e => .error e
         | .ok rep =>
           match expandGo f tblCyc ([] : List Char) with
           | .error e => .error e
           | .ok tailOut => .ok (rep ++ tailOut)) := rfl
    constructor
    · rw [stepA, ih.2]
    · rw [stepB, ih.1]

/-- Any recognized type tag canonicalizes to one of the five legal kinds;
every unrecognized tag makes `parseValue` report an invalid type name. -/
theorem parseValue_tag_cases (ty s : String) :
    (parseValue ty s).type = "invalid type name" ∨
      realKinds.contains (canonTag ty) = true := by
  by_cases h1 : ty = "int"
  · right; rw [h1]; decide
  by_cases h2 : ty = "hex"
  · right; rw [h2]; decide
  by_cases h3 : ty = "octal"
  · right; rw [h3]; decide
  by_cases h4 : ty = "float"
  · right; rw [h4]; decide
  by_cases h5 : ty = "bool" ∨ ty = "boolean"
  · rcases h5 with h5 | h5
    · right; rw [h5]; decide
    · right; rw [h5]; decide
  by_cases h6 : ty = "char"
  · right; rw [h6]; decide
  by_cases h7 : ty = "string"
  · right; rw [h7]; decide
  left
  have hval : parseValue ty s = { type := "invalid type name" } := by
    unfold parseValue
    rw [if_neg h1, if_neg h2, if_neg h3, if_neg h4, if_neg h5, if_neg h6, if_neg h7]
  rw [hval]

/-- Overwrite-insert preserves the legal-kinds invariant. -/
theorem allReal_insertOver {t : Table} {k : String} {v : configValue}
    (ht : allReal t = true) (hv : realKinds.contains v.type = true) :
    allReal (insertOver t k v) = true := by
  have hv2 : v.type ∈ realKinds := by simpa using hv
  induction t with
  | nil => simp [insertOver, allReal, hv2]
  | cons kv rest ih =>
    obtain ⟨k1, v1⟩ := kv
    simp only [allReal, List.all_cons, Bool.and_eq_true] at ht
    by_cases h1 : k1 = k
    · subst h1
      have ht2 : ∀ a b, (a, b) ∈ rest → b.type ∈ realKinds := by simpa using ht.2
      simp only [insertOver, if_pos rfl]
      simp [allReal, hv2]
      exact ht2
    · have hrest := ih ht.2
      have hv1 : v1.type ∈ realKinds := by simpa using ht.1
      have hrest2 : ∀ a b, (a, b) ∈ insertOver rest k v → b.type ∈ realKinds := by
        simpa [allReal] using hrest
      simp [insertOver, h1, allReal]
      exact ⟨hv1, hrest2⟩

/-- The include merge preserves the legal-kinds invariant. -/
theorem allReal_foldl_includeMergeStep (nf : String) :
    ∀ (t : List (String × configValue)) (acc : Table × List Warning),
      allReal acc.1 = true → allReal t = true →
      allReal (t.foldl (includeMergeStep nf) acc).1 = true := by
  intro t
  induction t with
  | nil => intro acc h _; exact h
  | cons kv rest ih =>
    intro acc hacc ht
    simp only [allReal, List.all_cons, Bool.and_eq_true] at ht
    exact ih _ (allReal_insertOver hacc ht.1) ht.2

/-- A successful assignment step only inserts a value with a legal kind. -/
theorem allReal_applyAssign {filename : String} {ln : Nat} {ty nm vt : String}
    {acc out : Table × List Warning}
    (h : applyAssign filename ln ty nm vt acc = .ok out)
    (hacc : allReal acc.1 = true) : allReal out.1 = true := by
  unfold applyAssign at h
  by_cases h1 : (parseValue ty (trimLeft vt)).type = "invalid type name"
  · simp [h1] at h
  · by_cases h2 : (parseValue ty (trimLeft vt)).type = "invalid syntax"
    · simp [h1, h2] at h
    · simp only [h1, h2, if_false, ite_false] at h
      have hk : realKinds.contains (canonTag ty) = true := by
        rcases parseValue_tag_cases ty (trimLeft vt) with hcase | hcase
        · exact absurd hcase h1
        · exact hcase
      have hout : out.1 = insertOver acc.1 nm
          { parseValue ty (trimLeft vt) with type := canonTag ty } := by
        cases h; rfl
      rw [hout]
      exact allReal_insertOver hacc hk

/-- The line loop preserves the legal-kinds invariant all the way through
blank lines, includes and assignments. -/
theorem loadGo_allReal :
    ∀ (fuel : Nat) (fs : FS) (fn : String) (lines : List String) (ln : Nat)
      (acc out : Table × List Warning),
      loadGo fuel fs fn lines ln acc = .ok out → allReal acc.1 = true →
      allReal out.1 = true := by
  intro fuel
  induction fuel with
  | zero =>
    intro fs fn lines ln acc out h _
    exact absurd h (by simp [loadGo])
  | succ f ih =>
    intro fs fn lines ln acc out h hacc
    cases lines with
    | nil =>
      simp only [loadGo, Except.ok.injEq] at h
      rw [← h]
      exact hacc
    | cons line rest =>
      simp only [loadGo] at h
      by_cases hw : isAllWhitespace line
      · rw [if_pos hw] at h
        exact ih _ _ _ _ _ _ h hacc
      · rw [if_neg hw] at h
        cases hinc : includeMatch line with
        | some payload =>
          simp only [hinc] at h
          cases hfs : fs.lookup (resolveInclude fn payload) with
          | none => simp [hfs] at h
          | some newLines =>
            simp only [hfs] at h
            cases hrec : loadGo f fs (resolveInclude fn payload) newLines 1 ([], []) with
            | error e => simp [hrec] at h
            | ok tw =>
              simp only [hrec] at h
              have htw : allReal tw.1 = true := ih _ _ _ _ _ _ hrec rfl
              exact ih _ _ _ _ _ _ h
                (allReal_foldl_includeMergeStep _ tw.1 _ hacc htw)
        | none =>
          simp only [hinc] at h
          cases hlm : lineMatch line with
          | none => simp [hlm] at h
          | some tnv =>
            simp only [hlm] at h
            cases happ : applyAssign fn ln tnv.1 tnv.2.1 tnv.2.2 acc with
            | error e => simp [happ] at h
            | ok acc2 =>
              simp only [happ] at h
              exact ih _ _ _ _ _ _ h (allReal_applyAssign happ hacc)

/-- Merging two tables of legal kinds yields a table of legal kinds. -/
theorem allReal_merge :
    ∀ (t2 t1 : Table), allReal t1 = true → allReal t2 = true →
      allReal (mergeConfigTables t1 t2) = true := by
  intro t2
  induction t2 with
  | nil => intro t1 h1 _; exact h1
  | cons kv rest ih =>
    intro t1 h1 h2
    simp only [allReal, List.all_cons, Bool.and_eq_true] at h2
    show allReal (mergeConfigTables (insertOver t1 kv.1 kv.2) rest) = true
    exact ih _ (allReal_insertOver h1 h2.1) h2.2

/-! ## Claims -/

/-- Claim C1, counterexample.  On the store `A = "x"`, `B = "$A"`, `C = "$B"`
the claim's one-level expansion of the raw text of `C` yields `$A` (the raw
stored value of `B`, not re-expanded), but `getString("C")` in the code
returns `x`: the substituted text is expanded again. -/
theorem C1_counterexample :
    List.lookup "C" tblChain = some (strVal "$B") ∧
    expandOnceSpec 20 tblChain ("$B".data) = some ("$A".data) ∧
    getStringConfig 20 tblChain "C" = .ok "x" ∧
    (("x" : String) == "$A") = false := by decide

/-- Claim C1, amended: expansion inside `getString` is recursive — each
`$` + identifier occurrence is replaced by the fully expanded string value of
the referenced name, because the replacement callback is itself a
`getStringConfig` call.  Hence the two-step chain `C = "$B"`, `B = "$A"`,
`A = "x"` resolves all the way to `x`, and mutually referring string values
make the expansion non-terminating (no amount of fuel suffices in the model;
the C++ recurses without a base case). -/
theorem C1_expansionRecursive :
    getStringConfig 20 tblChain "C" = .ok "x" ∧
    (∀ fuel, getStringConfig fuel tblCyc "A" = .error .fuelOut) := by
  refine ⟨by decide, fun fuel => ?_⟩
  have hs : getStringConfig fuel tblCyc "A" =
      (match expandGo fuel tblCyc ("$B".data) with
       | .error e => .error e
       | .ok out => .ok (String.mk out)) := rfl
  rw [hs, (expandGo_cyc fuel).2]

/-- Claim C3, counterexample.  `getString` can fail with `NotFound` even
though the looked-up name is present in the table: on
`URL = "$MISSING"` the getter fails with `NotFound "MISSING"` raised while
expanding the stored text, although `URL` itself is bound (and of string
kind). -/
theorem C3_counterexample :
    (List.lookup "URL" tblMiss).isSome = true ∧
    getStringConfig 5 tblMiss "URL" = .error (.notFound "MISSING") := by decide

/-- Claim C3, amended.  For `getInt`/`getFloat`/`getBool`/`getChar` the claim
holds as stated: `NotFound` exactly when the name is absent, `TypeMismatch`
exactly when it is present with a different stored kind (the error carrying
the expected and the found kind), and the stored value otherwise.  For
`getString` those conditions are only sufficient for the looked-up name
itself: absence gives `NotFound`, a non-string kind gives `TypeMismatch`, and
a present string value whose text contains no `$` is returned as stored — but
expansion of `$`-references can additionally fail with `NotFound` or
`TypeMismatch` for the referenced name even when the looked-up name is
present, so the only-if directions fail for `getString`. -/
theorem C3_typedGetters (tbl : Table) (n : String) (fuel : Nat) :
    (getIntConfig tbl n = .error (.notFound n) ↔ tbl.lookup n = none) ∧
    (getFloatConfig tbl n = .error (.notFound n) ↔ tbl.lookup n = none) ∧
    (getBoolConfig tbl n = .error (.notFound n) ↔ tbl.lookup n = none) ∧
    (getCharConfig tbl n = .error (.notFound n) ↔ tbl.lookup n = none) ∧
    (∀ e f, getIntConfig tbl n = .error (.typeMismatch n e f) ↔
      (e = "int" ∧ f ≠ "int" ∧ ∃ w, tbl.lookup n = some w ∧ w.type = f)) ∧
    (∀ e f, getFloatConfig tbl n = .error (.typeMismatch n e f) ↔
      (e = "float" ∧ f ≠ "float" ∧ ∃ w, tbl.lookup n = some w ∧ w.type = f)) ∧
    (∀ e f, getBoolConfig tbl n = .error (.typeMismatch n e f) ↔
      (e = "bool" ∧ f ≠ "bool" ∧ ∃ w, tbl.lookup n = some w ∧ w.type = f)) ∧
    (∀ e f, getCharConfig tbl n = .error (.typeMismatch n e f) ↔
      (e = "char" ∧ f ≠ "char" ∧ ∃ w, tbl.lookup n = some w ∧ w.type = f)) ∧
    (∀ v, tbl.lookup n = some v → v.type = "int" → getIntConfig tbl n = .ok v.intVal) ∧
    (∀ v, tbl.lookup n = some v → v.type = "float" → getFloatConfig tbl n = .ok v.floatVal) ∧
    (∀ v, tbl.lookup n = some v → v.type = "bool" → getBoolConfig tbl n = .ok v.boolVal) ∧
    (∀ v, tbl.lookup n = some v → v.type = "char" → getCharConfig tbl n = .ok v.charVal) ∧
    (tbl.lookup n = none → getStringConfig fuel tbl n = .error (.notFound n)) ∧
    (∀ v, tbl.lookup n = some v → v.type ≠ "string" →
      getStringConfig fuel tbl n = .error (.typeMismatch n "string" v.type)) ∧
    (∀ v, tbl.lookup n = some v → v.type = "string" →
      (∀ c ∈ v.stringVal.data, c ≠ '$') → v.stringVal.data.length < fuel →
      getStringConfig fuel tbl n = .ok v.stringVal) :=
  ⟨getConfigGen_notFound_iff _ _ tbl n,
   getConfigGen_notFound_iff _ _ tbl n,
   getConfigGen_notFound_iff _ _ tbl n,
   getConfigGen_notFound_iff _ _ tbl n,
   fun e f => getConfigGen_mismatch_iff _ _ tbl n e f,
   fun e f => getConfigGen_mismatch_iff _ _ tbl n e f,
   fun e f => getConfigGen_mismatch_iff _ _ tbl n e f,
   fun e f => getConfigGen_mismatch_iff _ _ tbl n e f,
   fun v hv ht => getConfigGen_ok _ _ tbl n v hv ht,
   fun v hv ht => getConfigGen_ok _ _ tbl n v hv ht,
   fun v hv ht => getConfigGen_ok _ _ tbl n v hv ht,
   fun v hv ht => getConfigGen_ok _ _ tbl n v hv ht,
   fun h => by simp [getStringConfig, h],
   fun v hv ht => by simp [getStringConfig, hv, ht],
   fun v hv ht hnd hlen => by
     have he := expandGo_no_dollar tbl v.stringVal.data fuel hnd hlen
     simp [getStringConfig, hv, ht, he]⟩

/-- Claim C3, witness: on a one-entry store with a dollar-free string value,
`getString` returns the stored text unchanged. -/
theorem C3_witness :
    getStringConfig 2 [("S", strVal "a")] "S" = .ok "a" :=
  (C3_typedGetters [("S", strVal "a")] "S" 2).2.2.2.2.2.2.2.2.2.2.2.2.2.2
    (strVal "a") (by decide) rfl (by decide) (by decide)

/-- Claim C4 (confirmed): every table produced by a successful load and every
merge of such tables carries only the five legal kinds (`realKinds` lists
exactly int, float, bool, char, string, so in particular the transient error
tags never appear in a table: loading fails before an erroneous value is
inserted). -/
theorem C4_storedKinds (fuel : Nat) (fs : FS) (p : String) (tbl : Table)
    (ws : List Warning) (t1 t2 : Table)
    (h : loadConfig fuel fs p = .ok (tbl, ws))
    (h1 : allReal t1 = true) (h2 : allReal t2 = true) :
    allReal tbl = true ∧ allReal (mergeConfigTables t1 t2) = true := by
  refine ⟨?_, allReal_merge t2 t1 h1 h2⟩
  unfold loadConfig at h
  cases hfs : fs.lookup p with
  | none => simp [hfs] at h
  | some lines =>
    simp only [hfs] at h
    exact loadGo_allReal fuel fs p lines 1 ([], []) (tbl, ws) h rfl

/-- Claim C4, witness: a concrete one-line load produces a table of legal
kinds, and the empty merge does too. -/
theorem C4_witness :
    allReal [("X", { type := "int", intVal := 1 })] = true ∧
    allReal (mergeConfigTables [] []) = true :=
  C4_storedKinds 3 fsW "a.cfg" [("X", { type := "int", intVal := 1 })] [] [] []
    (by decide) rfl rfl

/-- Claim C5 (confirmed): overwrite-last-wins.  The single-step insert makes
the inserted name map to the new value and leaves other names unchanged, and
in the include-precedence scenario (root includes `b.cfg` defining `N = 1`,
then itself defines `N = 2`) the final value of `N` is `2` while exactly the
redefinition warning is emitted — the warning is a side channel and the table
still holds the last-applied value. -/
theorem C5_lastWins :
    (∀ (t : Table) (k m : String) (v : configValue),
        (insertOver t k v).lookup m = if m = k then some v else t.lookup m) ∧
    (loadConfig 5 fsC5 "d/root.cfg").map (fun r => (getIntConfig r.1 "N", r.2)) =
      .ok (.ok 2, [Warning.alreadyBound "d/root.cfg" 2 "N"]) :=
  ⟨lookup_insertOver, by decide⟩

/-- Claim C6 (confirmed): loading `int X = 42`, `hex Y = 0x1F`,
`octal Z = 017` and reading the three names through `getInt` yields 42, 31
and 15 — hex text parses base-16, octal text base-8, both stored as int. -/
theorem C6_roundTrip :
    (loadConfig 5 fsC6 "conf.cfg").map
      (fun r => (getIntConfig r.1 "X", getIntConfig r.1 "Y", getIntConfig r.1 "Z")) =
      .ok (.ok 42, .ok 31, .ok 15) := by decide

/-- Claim C7, counterexample.  The bare two-character text `ab` does not give
`InvalidSyntax`: the `%c` fallback converts its first character, so the parse
succeeds with kind char and value `a`. -/
theorem C7_counterexample :
    (parseValue "char" "ab").type = "char" ∧ (parseValue "char" "ab").charVal = 'a' ∧
    (("char" : String) == "invalid syntax") = false := by decide

/-- Claim C7, amended: the char parse fails only on the empty text.  A text
beginning with a single quote and having at least one further character
stores that following character (so a quoted escape such as backslash-n
stores the backslash, and no closing quote is required); any other nonempty
text stores its first character — bare multi-character text is accepted, not
rejected. -/
theorem C7_charParse (t : String) :
    (t.data = [] → (parseValue "char" t).type = "invalid syntax") ∧
    (∀ c rest, t.data = squoteChar :: c :: rest →
      (parseValue "char" t).type = "char" ∧ (parseValue "char" t).charVal = c) ∧
    (∀ c rest, t.data = c :: rest → (c = squoteChar → rest = []) →
      (parseValue "char" t).type = "char" ∧ (parseValue "char" t).charVal = c) := by
  have hc : parseValue "char" t =
      (match t.data with
       | [] => { type := "invalid syntax" }
       | [c] => { type := "char", charVal := c }
       | a :: b :: _ =>
         if a = squoteChar then { type := "char", charVal := b }
         else { type := "char", charVal := a }) := by
    simp [parseValue]
  refine ⟨?_, ?_, ?_⟩
  · intro h
    rw [hc, h]
  · intro c rest h
    rw [hc, h]
    simp
  · intro c rest h hq
    rw [hc, h]
    cases rest with
    | nil => simp
    | cons b rs =>
      have hne : ¬ c = squoteChar := fun hh => by simpa using hq hh
      simp [hne]

/-- Claim C7, witness: the quoted form stores the quoted character. -/
theorem C7_witness :
    (parseValue "char" (String.mk [squoteChar, 'x', squoteChar])).type = "char" ∧
    (parseValue "char" (String.mk [squoteChar, 'x', squoteChar])).charVal = 'x' :=
  (C7_charParse _).2.1 'x' [squoteChar] (by rfl)

/-- Claim C8 (confirmed): for every input text, parsing with tag `hex`,
`octal` or `boolean` never stores the alias tag itself — the stored kind is
the canonical `int` resp. `bool` on success and the transient
`invalid syntax` marker on failure, never the alias; and the loader-side
re-canonicalization maps the aliases to the same canonical kinds. -/
theorem C8_canonicalKinds (s : String) :
    ((parseValue "hex" s).type = "int" ∨ (parseValue "hex" s).type = "invalid syntax") ∧
    ((parseValue "octal" s).type = "int" ∨ (parseValue "octal" s).type = "invalid syntax") ∧
    ((parseValue "boolean" s).type = "bool" ∨ (parseValue "boolean" s).type = "invalid syntax") ∧
    ((parseValue "hex" s).type == "hex") = false ∧
    ((parseValue "octal" s).type == "octal") = false ∧
    ((parseValue "boolean" s).type == "boolean") = false ∧
    canonTag "hex" = "int" ∧ canonTag "octal" = "int" ∧ canonTag "boolean" = "bool" := by
  have hh : parseValue "hex" s =
      (match parseIntText 16 hexDigitVal s.data with
       | some n => { type := "int", intVal := n }
       | none => { type := "invalid syntax" }) := by
    simp [parseValue]
  have ho : parseValue "octal" s =
      (match parseIntText 8 octDigitVal s.data with
       | some n => { type := "int", intVal := n }
       | none => { type := "invalid syntax" }) := by
    simp [parseValue]
  have hb : parseValue "boolean" s =
      (if s = "true" ∨ s = "1" then { type := "bool", boolVal := true }
       else if s = "false" ∨ s = "0" then { type := "bool", boolVal := false }
       else { type := "invalid syntax" }) := by
    simp [parseValue]
  refine ⟨?_, ?_, ?_, ?_, ?_, ?_, by decide, by decide, by decide⟩
  · rw [hh]; cases parseIntText 16 hexDigitVal s.data <;> simp
  · rw [ho]; cases parseIntText 8 octDigitVal s.data <;> simp
  · rw [hb]; split_ifs <;> simp
  · rw [hh]; cases parseIntText 16 hexDigitVal s.data <;> simp
  · rw [ho]; cases parseIntText 8 octDigitVal s.data <;> simp
  · rw [hb]; split_ifs <;> simp

/-- Claim C8, witness: the theorem applied to the concrete text `0x1F`. -/
theorem C8_witness :
    ((parseValue "hex" "0x1F").type = "int" ∨
      (parseValue "hex" "0x1F").type = "invalid syntax") ∧
    canonTag "boolean" = "bool" :=
  ⟨(C8_canonicalKinds "0x1F").1, (C8_canonicalKinds "0x1F").2.2.2.2.2.2.2.2⟩

/-- Claim C9 (confirmed): a line is blank — skipped with no entry and no
error — exactly when every character before the first `#` (or the end of the
line) is a literal space; a tab in that prefix makes the line non-blank; and
the line loop of the loader steps over a blank line without touching the
accumulated table or warnings. -/
theorem C9_blankLines (s line : String) (fuel : Nat) (fs : FS) (fn : String)
    (rest : List String) (ln : Nat) (acc : Table × List Warning) :
    (isAllWhitespace s = true ↔ ∀ c ∈ s.data.takeWhile (fun c => decide (c ≠ '#')), c = ' ') ∧
    ('\t' ∈ s.data.takeWhile (fun c => decide (c ≠ '#')) → isAllWhitespace s = false) ∧
    (isAllWhitespace line = true →
      loadGo (fuel + 1) fs fn (line :: rest) ln acc = loadGo fuel fs fn rest (ln + 1) acc) := by
  refine ⟨isAllWhitespaceGo_iff s.data, ?_, ?_⟩
  · intro hmem
    cases hb : isAllWhitespace s
    · rfl
    · exfalso
      have hall := (isAllWhitespaceGo_iff s.data).1 hb
      have := hall _ hmem
      simp at this
  · intro h
    simp [loadGo, h]

/-- Claim C9, witness: a tab-only line is not blank. -/
theorem C9_witness : isAllWhitespace "\t" = false :=
  (C9_blankLines "\t" "" 0 [] "" [] 0 ([], [])).2.1 (by decide)

/-- Claim C10 (confirmed): the exact text consisting of two double-quote
characters is rejected by the string parser with `invalid syntax` — both
scanf conversions require at least one matched character, so the empty quoted
string is not a value. -/
theorem C10_emptyQuoted :
    (parseValue "string" "\"\"").type = "invalid syntax" := by decide
